import Mathlib

/-!
Shallow embedding of the procedural-terrain program (src/bungee/main.cpp):
the spectral height-field generator `getTerrainInfo` with its weight
function `E`, the parametric-surface tessellator `ParamSurface::create`
with its two-pass height normalization, the per-strip draw ranges of
`ParamSurface::Draw`, the dual-number arithmetic `Dnum`, the vertex-shader
light-direction computation, and `Object::Animate`.

Machine floating-point values are modelled as real numbers; loops are
modelled as folds over `List.range`, mirroring the accumulation order of
the C++ loops.
-/

/-- A 3-component vector, as the source's `vec3`. -/
structure Vec3 where
  x : ℝ
  y : ℝ
  z : ℝ

/-- A 4-component homogeneous vector, as the source's `vec4`. -/
structure Vec4 where
  x : ℝ
  y : ℝ
  z : ℝ
  w : ℝ

/-- Squared Euclidean length of a `Vec3`. -/
def normSq (v : Vec3) : ℝ := v.x ^ 2 + v.y ^ 2 + v.z ^ 2

/-- The per-harmonic weight, from the source:
`E(A, one, two) = one + two == 0 ? 0 : A / sqrt(powf(one,2) + powf(two,2))`. -/
noncomputable def E (A : ℝ) (one two : ℕ) : ℝ :=
  if one + two = 0 then 0 else A / Real.sqrt ((one : ℝ) ^ 2 + (two : ℝ) ^ 2)

/-- The index used to read the phase-coefficient table inside
`getTerrainInfo`: `coeffs[(int)one * n + (int)two]`. -/
def terrainIndex (n one two : ℕ) : ℕ := one * n + two

/-- The first double loop of `getTerrainInfo`: accumulates
`total += E(A,one,two) * cosf(one*x + two*y + coeffs[one*n+two])`
for `one, two` running over `0..n` (inclusive), after the angular remap
of `x` and `y` has already been applied. -/
noncomputable def terrainSumH (coeffs : ℕ → ℝ) (A xa ya : ℝ) (n : ℕ) : ℝ :=
  (List.range (n + 1)).foldl (fun acc one =>
    (List.range (n + 1)).foldl (fun acc2 two =>
      acc2 + E A one two *
        Real.cos ((one : ℝ) * xa + (two : ℝ) * ya + coeffs (terrainIndex n one two))) acc) 0

/-- The second double loop of `getTerrainInfo`: accumulates
`dx += E(A,one,two) * (-1 * sinf(one*x + two*y + coeffs[one*n+two]) * one)`. -/
noncomputable def terrainSumDx (coeffs : ℕ → ℝ) (A xa ya : ℝ) (n : ℕ) : ℝ :=
  (List.range (n + 1)).foldl (fun acc one =>
    (List.range (n + 1)).foldl (fun acc2 two =>
      acc2 + E A one two *
        (-1 * Real.sin ((one : ℝ) * xa + (two : ℝ) * ya + coeffs (terrainIndex n one two)) *
          (one : ℝ))) acc) 0

/-- The third double loop of `getTerrainInfo`: accumulates
`dy += E(A,one,two) * (-1 * sinf(one*x + two*y + coeffs[one*n+two]) * two)`. -/
noncomputable def terrainSumDy (coeffs : ℕ → ℝ) (A xa ya : ℝ) (n : ℕ) : ℝ :=
  (List.range (n + 1)).foldl (fun acc one =>
    (List.range (n + 1)).foldl (fun acc2 two =>
      acc2 + E A one two *
        (-1 * Real.sin ((one : ℝ) * xa + (two : ℝ) * ya + coeffs (terrainIndex n one two)) *
          (two : ℝ))) acc) 0

/-- Result of a height-field query: the out-parameters `height` and `norm`
of `getTerrainInfo`. -/
structure TerrainResult where
  height : ℝ
  normal : Vec3

/-- The function `getTerrainInfo(x, y, n, height, norm)` from the source: remaps
`x = x*M_PI - M_PI`, `y = y*M_PI - M_PI`, runs the three double loops,
and returns `height = total`, `norm = vec3(-dx, 1, -dy)`.  The global
`coeffs` table and amplitude `A` are passed explicitly. -/
noncomputable def getTerrainInfo (coeffs : ℕ → ℝ) (A x y : ℝ) (n : ℕ) : TerrainResult :=
  let xa := x * Real.pi - Real.pi
  let ya := y * Real.pi - Real.pi
  { height := terrainSumH coeffs A xa ya n
    normal := ⟨-(terrainSumDx coeffs A xa ya n), 1, -(terrainSumDy coeffs A xa ya n)⟩ }

/-- A mesh vertex, as the source's `ParamSurface::VertexData`:
`vec3 position, normal; float h;`. -/
structure VertexData where
  position : Vec3
  normal : Vec3
  h : ℝ

/-- The method `ParamSurface::GenVertexData(u, v)`: queries the height field at
`(u, v)` with truncation order 35 and builds the vertex
`position = (u*15 - 7.5, h, v*15 - 7.5)`, `normal = norm`, `h = h`. -/
noncomputable def GenVertexData (coeffs : ℕ → ℝ) (A : ℝ) (u v : ℝ) : VertexData :=
  let r := getTerrainInfo coeffs A u v 35
  { position := ⟨u * 15 - 7.5, r.height, v * 15 - 7.5⟩
    normal := r.normal
    h := r.height }

/-- The vertex-generation loops of `ParamSurface::create`: for
`i ∈ [0, N)` and `j ∈ [0, M]`, push the two vertices sampled at
`(j/M, i/N)` and `(j/M, (i+1)/N)`. -/
noncomputable def createVertices (coeffs : ℕ → ℝ) (A : ℝ) (N M : ℕ) : List VertexData :=
  (List.range N).foldl (fun acc (i : ℕ) =>
    (List.range (M + 1)).foldl (fun acc2 (j : ℕ) =>
      acc2 ++ [GenVertexData coeffs A ((j : ℝ) / (M : ℝ)) ((i : ℝ) / (N : ℝ)),
        GenVertexData coeffs A ((j : ℝ) / (M : ℝ)) (((i : ℝ) + 1) / (N : ℝ))]) acc) []

/-- The min/max scan of `ParamSurface::create`, exactly as coded:
`if (h > max) max = h; else if (h < min) min = h;` over the tail of the
vertex list, starting from the value of the first vertex. -/
noncomputable def minMaxLoop : ℝ → ℝ → List VertexData → ℝ × ℝ
  | mn, mx, [] => (mn, mx)
  | mn, mx, v :: rest =>
    if v.h > mx then minMaxLoop mn v.h rest
    else if v.h < mn then minMaxLoop v.h mx rest
    else minMaxLoop mn mx rest

/-- The two-pass normalization of `ParamSurface::create`: the code reads
`vtxData[0].h` unconditionally to seed the min/max scan, so an empty
vertex list makes that read out of bounds, modelled as `none`; otherwise
every height is rewritten to `(h - min) / (max - min)`. -/
noncomputable def normalizePass : List VertexData → Option (List VertexData)
  | [] => none
  | v0 :: rest =>
    let mm := minMaxLoop v0.h v0.h rest
    some ((v0 :: rest).map (fun v => { v with h := (v.h - mm.1) / (mm.2 - mm.1) }))

/-- The method `ParamSurface::create(N, M)`: generate the vertex grid, then run the
global height-normalization pass. -/
noncomputable def create (coeffs : ℕ → ℝ) (A : ℝ) (N M : ℕ) : Option (List VertexData) :=
  normalizePass (createVertices coeffs A N M)

/-- The draw ranges issued by `ParamSurface::Draw`: for each strip
`i ∈ [0, nStrips)` a `glDrawArrays` call with first vertex
`i * nVtxPerStrip` and count `nVtxPerStrip`, where `nStrips = N` and
`nVtxPerStrip = (M+1)*2` as set by `create`. -/
def drawCalls (N M : ℕ) : List (ℕ × ℕ) :=
  (List.range N).map (fun i => (i * ((M + 1) * 2), (M + 1) * 2))

/-- A concrete vertex with raw height `0`, used as test data. -/
noncomputable def vData0 : VertexData := ⟨⟨0, 0, 0⟩, ⟨0, 0, 0⟩, 0⟩

/-- A concrete vertex with raw height `2`, used as test data. -/
noncomputable def vData2 : VertexData := ⟨⟨0, 0, 0⟩, ⟨0, 0, 0⟩, 2⟩

/-- Running minimum of the height attributes, used to state what the
min/max scan computes. -/
noncomputable def foldMinH (init : ℝ) (l : List VertexData) : ℝ :=
  l.foldl (fun a v => min a v.h) init

/-- Running maximum of the height attributes. -/
noncomputable def foldMaxH (init : ℝ) (l : List VertexData) : ℝ :=
  l.foldl (fun a v => max a v.h) init

/-- Dual number for automatic differentiation, from the source's
`Dnum<T>` at scalar derivative type: `float f; T d;`. -/
structure Dnum where
  f : ℝ
  d : ℝ

/-- The `Dnum` multiplication operator from the source:
`Dnum(f * r.f, f * r.d + d * r.f)`. -/
noncomputable def Dnum.mul (a r : Dnum) : Dnum :=
  ⟨a.f * r.f, a.f * r.d + a.d * r.f⟩

/-- The `Dnum` division operator from the source:
`Dnum(f / r.f, (r.f * d - r.d * f) / r.f / r.f)`. -/
noncomputable def Dnum.div (a r : Dnum) : Dnum :=
  ⟨a.f / r.f, (r.f * a.d - r.d * a.f) / r.f / r.f⟩

/-- The elementary function `Sin(g) = Dnum(sinf(g.f), cosf(g.f) * g.d)` from the source. -/
noncomputable def SinD (g : Dnum) : Dnum := ⟨Real.sin g.f, Real.cos g.f * g.d⟩

/-- The elementary function `Cos(g) = Dnum(cosf(g.f), -sinf(g.f) * g.d)` from the source. -/
noncomputable def CosD (g : Dnum) : Dnum := ⟨Real.cos g.f, -Real.sin g.f * g.d⟩

/-- The per-light world-space light direction computed in the vertex
shader: `wLight[i] = lights[i].wLightPos.xyz * wPos.w - wPos.xyz *
lights[i].wLightPos.w`, with `wPos.w` passed explicitly (it is `1` for
the affine model transform used). -/
noncomputable def wLightDir (lightPos : Vec4) (wPosXYZ : Vec3) (wPosW : ℝ) : Vec3 :=
  ⟨lightPos.x * wPosW - wPosXYZ.x * lightPos.w,
    lightPos.y * wPosW - wPosXYZ.y * lightPos.w,
    lightPos.z * wPosW - wPosXYZ.z * lightPos.w⟩

/-- An `Object` from the source: references to shader, material, texture
and geometry (modelled as opaque handles), plus the per-object transform
`scale`, `translation`, `rotationAxis`, `rotationAngle`. -/
structure Object where
  shader : ℕ
  material : ℕ
  texture : ℕ
  geometry : ℕ
  scale : Vec3
  translation : Vec3
  rotationAxis : Vec3
  rotationAngle : ℝ

/-- The method `Object::Animate(tstart, tend)`, whose body is the single assignment of `0.8f * tend` to `rotationAngle`. -/
noncomputable def Object.animate (o : Object) (tstart tend : ℝ) : Object :=
  { o with rotationAngle := 0.8 * tend }

-- Helper lemmas: turning the accumulation folds into big-operator sums.

lemma foldl_add_map (g : ℕ → ℝ) :
    ∀ (l : List ℕ) (a : ℝ), l.foldl (fun acc i => acc + g i) a = a + (l.map g).sum := by
  intro l
  induction l with
  | nil => intro a; simp
  | cons hd tl ih => intro a; simp [ih, add_assoc]

lemma map_range_sum (g : ℕ → ℝ) :
    ∀ m : ℕ, ((List.range m).map g).sum = ∑ i ∈ Finset.range m, g i := by
  intro m
  induction m with
  | zero => simp
  | succ m ih =>
      rw [List.range_succ, List.map_append, List.sum_append, Finset.sum_range_succ, ih]
      simp

lemma foldl_nested_sum (g : ℕ → ℕ → ℝ) (m : ℕ) :
    ∀ (l : List ℕ) (a : ℝ),
      l.foldl (fun acc i => (List.range m).foldl (fun acc2 j => acc2 + g i j) acc) a =
        a + (l.map (fun i => ∑ j ∈ Finset.range m, g i j)).sum := by
  intro l
  induction l with
  | nil => intro a; simp
  | cons hd tl ih =>
      intro a
      simp only [List.foldl_cons, ih, foldl_add_map, map_range_sum, List.map_cons,
        List.sum_cons]
      ring

lemma terrainSumH_eq_sum (coeffs : ℕ → ℝ) (A xa ya : ℝ) (n : ℕ) :
    terrainSumH coeffs A xa ya n =
      ∑ one ∈ Finset.range (n + 1), ∑ two ∈ Finset.range (n + 1),
        E A one two *
          Real.cos ((one : ℝ) * xa + (two : ℝ) * ya + coeffs (terrainIndex n one two)) := by
  rw [terrainSumH, foldl_nested_sum, map_range_sum]
  simp

lemma terrainSumDx_eq_sum (coeffs : ℕ → ℝ) (A xa ya : ℝ) (n : ℕ) :
    terrainSumDx coeffs A xa ya n =
      ∑ one ∈ Finset.range (n + 1), ∑ two ∈ Finset.range (n + 1),
        E A one two *
          (-1 * Real.sin ((one : ℝ) * xa + (two : ℝ) * ya + coeffs (terrainIndex n one two)) *
            (one : ℝ)) := by
  rw [terrainSumDx, foldl_nested_sum, map_range_sum]
  simp

lemma terrainSumDy_eq_sum (coeffs : ℕ → ℝ) (A xa ya : ℝ) (n : ℕ) :
    terrainSumDy coeffs A xa ya n =
      ∑ one ∈ Finset.range (n + 1), ∑ two ∈ Finset.range (n + 1),
        E A one two *
          (-1 * Real.sin ((one : ℝ) * xa + (two : ℝ) * ya + coeffs (terrainIndex n one two)) *
            (two : ℝ)) := by
  rw [terrainSumDy, foldl_nested_sum, map_range_sum]
  simp

lemma E_spec_vals : E 2 3 4 = 0.4 ∧ E 2 1 0 = 2 := by
  constructor
  · rw [E]
    norm_num
    rw [show (25 : ℝ) = 5 ^ 2 by norm_num, Real.sqrt_sq (by norm_num : (0:ℝ) ≤ 5)]
  · rw [E]
    norm_num

/-- C1: `getTerrainInfo` first remaps `x` and `y` by `t ↦ t·π − π` and
returns a height equal to the double sum over `i, j ∈ [0, n]` of
`E(A,i,j) · cos(i·x' + j·y' + coeffs[i·n+j])`, where `E(A,i,j)` is `0`
at `i = j = 0` and `A/√(i²+j²)` otherwise; in particular
`E(2,3,4) = 0.4` and `E(2,1,0) = 2`. -/
theorem c1_height_formula (coeffs : ℕ → ℝ) (A x y : ℝ) (n i j : ℕ)
    (hij : ¬(i = 0 ∧ j = 0)) :
    (getTerrainInfo coeffs A x y n).height =
      (∑ a ∈ Finset.range (n + 1), ∑ b ∈ Finset.range (n + 1),
        E A a b * Real.cos ((a : ℝ) * (x * Real.pi - Real.pi) +
          (b : ℝ) * (y * Real.pi - Real.pi) + coeffs (a * n + b))) ∧
    E A 0 0 = 0 ∧
    E A i j = A / Real.sqrt ((i : ℝ) ^ 2 + (j : ℝ) ^ 2) ∧
    E 2 3 4 = 0.4 ∧ E 2 1 0 = 2 := by
  refine ⟨?_, ?_, ?_, E_spec_vals.1, E_spec_vals.2⟩
  · rw [getTerrainInfo]
    simp only [terrainSumH_eq_sum, terrainIndex]
  · simp [E]
  · rw [E, if_neg]
    omega

/-- Witness for C1 at concrete inputs. -/
theorem c1_height_formula_witness :
    ¬((3 : ℕ) = 0 ∧ (4 : ℕ) = 0) ∧
    ((getTerrainInfo (fun _ => 0) 2 0 0 1).height =
      (∑ a ∈ Finset.range (1 + 1), ∑ b ∈ Finset.range (1 + 1),
        E 2 a b * Real.cos ((a : ℝ) * (0 * Real.pi - Real.pi) +
          (b : ℝ) * (0 * Real.pi - Real.pi) + (fun _ => (0:ℝ)) (a * 1 + b))) ∧
    E 2 0 0 = 0 ∧
    E 2 3 4 = 2 / Real.sqrt ((3 : ℝ) ^ 2 + (4 : ℝ) ^ 2) ∧
    E 2 3 4 = 0.4 ∧ E 2 1 0 = 2) :=
  ⟨by decide, c1_height_formula (fun _ => 0) 2 0 0 1 3 4 (by decide)⟩

lemma getTerrainInfo_normal_eq (coeffs : ℕ → ℝ) (A x y : ℝ) (n : ℕ) :
    (getTerrainInfo coeffs A x y n).normal =
      ⟨-(terrainSumDx coeffs A (x * Real.pi - Real.pi) (y * Real.pi - Real.pi) n), 1,
        -(terrainSumDy coeffs A (x * Real.pi - Real.pi) (y * Real.pi - Real.pi) n)⟩ := rfl

/-- C10: the normal produced by `getTerrainInfo` always has `y`-component
exactly `1`; hence the normal is never the zero vector and its Euclidean
length is at least `1`, so normalizing it downstream is well-defined. -/
theorem c10_normal_invariant (coeffs : ℕ → ℝ) (A x y : ℝ) (n : ℕ) :
    (getTerrainInfo coeffs A x y n).normal.y = 1 ∧
    (getTerrainInfo coeffs A x y n).normal ≠ ⟨0, 0, 0⟩ ∧
    1 ≤ Real.sqrt (normSq (getTerrainInfo coeffs A x y n).normal) := by
  rw [getTerrainInfo_normal_eq]
  set dxv := terrainSumDx coeffs A (x * Real.pi - Real.pi) (y * Real.pi - Real.pi) n
  set dyv := terrainSumDy coeffs A (x * Real.pi - Real.pi) (y * Real.pi - Real.pi) n
  refine ⟨rfl, ?_, ?_⟩
  · intro h
    rw [Vec3.mk.injEq] at h
    exact one_ne_zero h.2.1
  · have h1 : 1 ≤ normSq ⟨-dxv, 1, -dyv⟩ := by
      show (1 : ℝ) ≤ (-dxv) ^ 2 + 1 ^ 2 + (-dyv) ^ 2
      nlinarith [sq_nonneg dxv, sq_nonneg dyv]
    calc (1 : ℝ) = Real.sqrt 1 := Real.sqrt_one.symm
    _ ≤ Real.sqrt (normSq ⟨-dxv, 1, -dyv⟩) := Real.sqrt_le_sqrt h1

/-- C2 counterexample: at `A = 1`, an all-zero phase table, truncation
order `n = 1` and domain point `(1/2, 1)`, the normal returned by
`getTerrainInfo` is not unit-length, so it cannot be the normalized
vector `normalize(-dx, 1, -dy)` that the claim describes. -/
theorem c2_counterexample :
    normSq (getTerrainInfo (fun _ => 0) 1 (1/2) 1 1).normal ≠ 1 := by
  rw [getTerrainInfo_normal_eq]
  set dxv := terrainSumDx (fun _ => 0) 1 ((1/2 : ℝ) * Real.pi - Real.pi)
    ((1 : ℝ) * Real.pi - Real.pi) 1 with hdxv
  set dyv := terrainSumDy (fun _ => 0) 1 ((1/2 : ℝ) * Real.pi - Real.pi)
    ((1 : ℝ) * Real.pi - Real.pi) 1
  have hxa : (1/2 : ℝ) * Real.pi - Real.pi = -(Real.pi/2) := by ring
  have hdx : dxv = 1 + 1 / Real.sqrt 2 := by
    rw [hdxv, terrainSumDx_eq_sum]
    simp only [Finset.sum_range_succ, Finset.sum_range_zero, Nat.cast_zero, Nat.cast_one,
      zero_mul, one_mul, mul_zero, zero_add, add_zero, mul_one, E, terrainIndex]
    rw [hxa]
    norm_num [Real.sin_neg, Real.sin_pi_div_two]
  have hpos : 0 < dxv := by
    rw [hdx]; positivity
  intro hcontra
  have hcontra2 : (-dxv) ^ 2 + 1 ^ 2 + (-dyv) ^ 2 = 1 := hcontra
  nlinarith [pow_pos hpos 2, sq_nonneg dyv]

/-- C2 as amended: the normal returned by `getTerrainInfo` is the raw,
un-normalized vector `(-dx, 1, -dy)`, where the partial derivatives are
the analytic double sums with per-term factors `-i*sin(...)` and
`-j*sin(...)`, each weighted by `E(A,i,j)`. -/
theorem c2_amended (coeffs : ℕ → ℝ) (A x y : ℝ) (n : ℕ) :
    (getTerrainInfo coeffs A x y n).normal =
      ⟨-(∑ a ∈ Finset.range (n + 1), ∑ b ∈ Finset.range (n + 1),
          E A a b * (-((a : ℝ) * Real.sin ((a : ℝ) * (x * Real.pi - Real.pi) +
            (b : ℝ) * (y * Real.pi - Real.pi) + coeffs (a * n + b))))),
        1,
        -(∑ a ∈ Finset.range (n + 1), ∑ b ∈ Finset.range (n + 1),
          E A a b * (-((b : ℝ) * Real.sin ((a : ℝ) * (x * Real.pi - Real.pi) +
            (b : ℝ) * (y * Real.pi - Real.pi) + coeffs (a * n + b)))))⟩ := by
  rw [getTerrainInfo_normal_eq, terrainSumDx_eq_sum, terrainSumDy_eq_sum]
  rw [Vec3.mk.injEq]
  refine ⟨?_, rfl, ?_⟩ <;>
  · congr 1
    refine Finset.sum_congr rfl fun a _ => Finset.sum_congr rfl fun b _ => ?_
    simp only [terrainIndex]
    ring

/-- C5 counterexample: at truncation order `n = 1` the read at harmonic
pair `(i, j) = (1, 1)` uses index `1*1 + 1 = 2`, which is not strictly
less than `n*n = 1`; a table of exactly `n*n` entries is overrun. -/
theorem c5_counterexample :
    terrainIndex 1 1 1 = 2 ∧ ¬(terrainIndex 1 1 1 < 1 * 1) := by decide

/-- C5 as amended: every read of the phase table uses index
`i*n + j ≤ n*n + n` (for `i, j ∈ [0, n]`), so `getTerrainInfo` depends
only on the first `n*n + n + 1` table entries — a table of at least
`n*n + n + 1` entries makes every access in bounds; in the current usage
(`n = 35`, a `1000*1000`-entry table) every access is in bounds. -/
theorem c5_amended (coeffs1 coeffs2 : ℕ → ℝ) (A x y : ℝ) (n i j : ℕ)
    (hn : 1 ≤ n) (hi : i ≤ n) (hj : j ≤ n)
    (hagree : ∀ k, k ≤ n * n + n → coeffs1 k = coeffs2 k) :
    terrainIndex n i j ≤ n * n + n ∧
    getTerrainInfo coeffs1 A x y n = getTerrainInfo coeffs2 A x y n ∧
    (n = 35 → terrainIndex n i j < 1000 * 1000) := by
  have hidx : ∀ a b : ℕ, a ≤ n → b ≤ n → terrainIndex n a b ≤ n * n + n := by
    intro a b ha hb
    rw [terrainIndex]
    exact Nat.add_le_add (Nat.mul_le_mul_right n ha) hb
  refine ⟨hidx i j hi hj, ?_, ?_⟩
  · have key : ∀ a b : ℕ, a ∈ Finset.range (n + 1) → b ∈ Finset.range (n + 1) →
        coeffs1 (terrainIndex n a b) = coeffs2 (terrainIndex n a b) := by
      intro a b ha hb
      exact hagree _ (hidx a b (Nat.lt_succ_iff.mp (Finset.mem_range.mp ha))
        (Nat.lt_succ_iff.mp (Finset.mem_range.mp hb)))
    have hH : terrainSumH coeffs1 A (x * Real.pi - Real.pi) (y * Real.pi - Real.pi) n =
        terrainSumH coeffs2 A (x * Real.pi - Real.pi) (y * Real.pi - Real.pi) n := by
      rw [terrainSumH_eq_sum, terrainSumH_eq_sum]
      exact Finset.sum_congr rfl fun a ha => Finset.sum_congr rfl fun b hb => by
        rw [key a b ha hb]
    have hDx : terrainSumDx coeffs1 A (x * Real.pi - Real.pi) (y * Real.pi - Real.pi) n =
        terrainSumDx coeffs2 A (x * Real.pi - Real.pi) (y * Real.pi - Real.pi) n := by
      rw [terrainSumDx_eq_sum, terrainSumDx_eq_sum]
      exact Finset.sum_congr rfl fun a ha => Finset.sum_congr rfl fun b hb => by
        rw [key a b ha hb]
    have hDy : terrainSumDy coeffs1 A (x * Real.pi - Real.pi) (y * Real.pi - Real.pi) n =
        terrainSumDy coeffs2 A (x * Real.pi - Real.pi) (y * Real.pi - Real.pi) n := by
      rw [terrainSumDy_eq_sum, terrainSumDy_eq_sum]
      exact Finset.sum_congr rfl fun a ha => Finset.sum_congr rfl fun b hb => by
        rw [key a b ha hb]
    rw [getTerrainInfo, getTerrainInfo]
    simp only [hH, hDx, hDy]
  · intro h35
    subst h35
    have := hidx i j hi hj
    omega

/-- Witness for C5 amended, at `n = 35`, `(i, j) = (35, 35)`, and two
tables that agree on the first `35*35 + 35 + 1` entries. -/
theorem c5_amended_witness :
    1 ≤ 35 ∧ 35 ≤ 35 ∧
    (∀ k, k ≤ 35 * 35 + 35 → (fun _ => (0 : ℝ)) k =
      (fun k => if k ≤ 35 * 35 + 35 then (0 : ℝ) else 1) k) ∧
    (terrainIndex 35 35 35 ≤ 35 * 35 + 35 ∧
      getTerrainInfo (fun _ => 0) 0 0 0 35 =
        getTerrainInfo (fun k => if k ≤ 35 * 35 + 35 then (0 : ℝ) else 1) 0 0 0 35 ∧
      (35 = 35 → terrainIndex 35 35 35 < 1000 * 1000)) :=
  ⟨by decide, by decide, fun k hk => by simp [hk],
    c5_amended (fun _ => 0) (fun k => if k ≤ 35 * 35 + 35 then (0 : ℝ) else 1) 0 0 0 35 35 35
      (by decide) (by decide) (by decide) (fun k hk => by simp [hk])⟩

lemma foldMinH_cons (a : ℝ) (v : VertexData) (l : List VertexData) :
    foldMinH a (v :: l) = foldMinH (min a v.h) l := rfl

lemma foldMaxH_cons (a : ℝ) (v : VertexData) (l : List VertexData) :
    foldMaxH a (v :: l) = foldMaxH (max a v.h) l := rfl

lemma minMaxLoop_eq (l : List VertexData) : ∀ mn mx : ℝ, mn ≤ mx →
    minMaxLoop mn mx l = (foldMinH mn l, foldMaxH mx l) := by
  induction l with
  | nil => intro mn mx _; rfl
  | cons v rest ih =>
      intro mn mx hle
      rw [foldMinH_cons, foldMaxH_cons]
      by_cases h1 : v.h > mx
      · rw [show minMaxLoop mn mx (v :: rest) = minMaxLoop mn v.h rest by
          simp [minMaxLoop, h1]]
        rw [min_eq_left (hle.trans h1.le), max_eq_right (le_of_lt h1)]
        exact ih mn v.h (hle.trans h1.le)
      · by_cases h2 : v.h < mn
        · rw [show minMaxLoop mn mx (v :: rest) = minMaxLoop v.h mx rest by
            simp [minMaxLoop, h1, h2]]
          rw [min_eq_right h2.le, max_eq_left (not_lt.mp h1)]
          exact ih v.h mx (h2.le.trans hle)
        · rw [show minMaxLoop mn mx (v :: rest) = minMaxLoop mn mx rest by
            simp [minMaxLoop, h1, h2]]
          rw [min_eq_left (not_lt.mp h2), max_eq_left (not_lt.mp h1)]
          exact ih mn mx hle

lemma foldMinH_le_init (l : List VertexData) : ∀ a : ℝ, foldMinH a l ≤ a := by
  induction l with
  | nil => intro a; exact le_refl a
  | cons v rest ih =>
      intro a
      rw [foldMinH_cons]
      exact (ih (min a v.h)).trans (min_le_left a v.h)

lemma foldMinH_le_mem (l : List VertexData) :
    ∀ (a : ℝ) (v : VertexData), v ∈ l → foldMinH a l ≤ v.h := by
  induction l with
  | nil => intro a v hv; cases hv
  | cons w rest ih =>
      intro a v hv
      rw [foldMinH_cons]
      rcases List.mem_cons.mp hv with h | h
      · subst h
        exact (foldMinH_le_init rest (min a v.h)).trans (min_le_right a v.h)
      · exact ih (min a w.h) v h

lemma init_le_foldMaxH (l : List VertexData) : ∀ a : ℝ, a ≤ foldMaxH a l := by
  induction l with
  | nil => intro a; exact le_refl a
  | cons v rest ih =>
      intro a
      rw [foldMaxH_cons]
      exact (le_max_left a v.h).trans (ih (max a v.h))

lemma mem_le_foldMaxH (l : List VertexData) :
    ∀ (a : ℝ) (v : VertexData), v ∈ l → v.h ≤ foldMaxH a l := by
  induction l with
  | nil => intro a v hv; cases hv
  | cons w rest ih =>
      intro a v hv
      rw [foldMaxH_cons]
      rcases List.mem_cons.mp hv with h | h
      · subst h
        exact (le_max_right a v.h).trans (init_le_foldMaxH rest (max a v.h))
      · exact ih (max a w.h) v h

lemma foldMinH_attained (l : List VertexData) :
    ∀ a : ℝ, foldMinH a l = a ∨ ∃ v ∈ l, foldMinH a l = v.h := by
  induction l with
  | nil => intro a; exact Or.inl rfl
  | cons w rest ih =>
      intro a
      rw [foldMinH_cons]
      rcases ih (min a w.h) with h | ⟨v, hv, he⟩
      · rcases min_cases a w.h with ⟨he, _⟩ | ⟨he, _⟩
        · exact Or.inl (h.trans he)
        · exact Or.inr ⟨w, List.mem_cons_self w rest, h.trans he⟩
      · exact Or.inr ⟨v, List.mem_cons_of_mem w hv, he⟩

lemma foldMaxH_attained (l : List VertexData) :
    ∀ a : ℝ, foldMaxH a l = a ∨ ∃ v ∈ l, foldMaxH a l = v.h := by
  induction l with
  | nil => intro a; exact Or.inl rfl
  | cons w rest ih =>
      intro a
      rw [foldMaxH_cons]
      rcases ih (max a w.h) with h | ⟨v, hv, he⟩
      · rcases max_cases a w.h with ⟨he, _⟩ | ⟨he, _⟩
        · exact Or.inl (h.trans he)
        · exact Or.inr ⟨w, List.mem_cons_self w rest, h.trans he⟩
      · exact Or.inr ⟨v, List.mem_cons_of_mem w hv, he⟩

lemma foldl_append_flatten {α : Type} (g : ℕ → List α) :
    ∀ (l : List ℕ) (acc : List α),
      l.foldl (fun a i => a ++ g i) acc = acc ++ (l.map g).flatten := by
  intro l
  induction l with
  | nil => intro acc; simp
  | cons hd tl ih =>
      intro acc
      simp only [List.foldl_cons, ih, List.map_cons, List.flatten_cons, List.append_assoc]

lemma foldl2_append_flatten {α : Type} (g : ℕ → ℕ → List α) (m : ℕ) :
    ∀ (l : List ℕ) (acc : List α),
      l.foldl (fun a i => (List.range m).foldl (fun b j => b ++ g i j) a) acc =
        acc ++ (l.map (fun i => ((List.range m).map (g i)).flatten)).flatten := by
  intro l
  induction l with
  | nil => intro acc; simp
  | cons hd tl ih =>
      intro acc
      simp only [List.foldl_cons, foldl_append_flatten, ih, List.map_cons,
        List.flatten_cons, List.append_assoc]

lemma sum_map_const_nat : ∀ (l : List ℕ) (c : ℕ), (l.map (fun _ => c)).sum = l.length * c := by
  intro l
  induction l with
  | nil => intro c; simp
  | cons hd tl ih => intro c; simp [ih, Nat.succ_mul, Nat.add_comm]

lemma createVertices_eq_flatten (coeffs : ℕ → ℝ) (A : ℝ) (N M : ℕ) :
    createVertices coeffs A N M =
      ((List.range N).map (fun i : ℕ => ((List.range (M + 1)).map (fun j : ℕ =>
        [GenVertexData coeffs A ((j : ℝ) / (M : ℝ)) ((i : ℝ) / (N : ℝ)),
          GenVertexData coeffs A ((j : ℝ) / (M : ℝ)) (((i : ℝ) + 1) / (N : ℝ))])).flatten)).flatten := by
  rw [createVertices, foldl2_append_flatten]
  simp

lemma createVertices_length (coeffs : ℕ → ℝ) (A : ℝ) (N M : ℕ) :
    (createVertices coeffs A N M).length = N * (M + 1) * 2 := by
  rw [createVertices_eq_flatten, List.length_flatten, List.map_map]
  have hinner : (List.length ∘ fun i : ℕ => ((List.range (M + 1)).map (fun j : ℕ =>
      [GenVertexData coeffs A ((j : ℝ) / (M : ℝ)) ((i : ℝ) / (N : ℝ)),
        GenVertexData coeffs A ((j : ℝ) / (M : ℝ)) (((i : ℝ) + 1) / (N : ℝ))])).flatten) =
      fun _ : ℕ => (M + 1) * 2 := by
    funext i
    simp only [Function.comp_apply, List.length_flatten, List.map_map]
    rw [show (List.length ∘ fun j : ℕ =>
        [GenVertexData coeffs A ((j : ℝ) / (M : ℝ)) ((i : ℝ) / (N : ℝ)),
          GenVertexData coeffs A ((j : ℝ) / (M : ℝ)) (((i : ℝ) + 1) / (N : ℝ))]) =
        fun _ : ℕ => 2 from rfl]
    rw [sum_map_const_nat, List.length_range]
  rw [hinner, sum_map_const_nat, List.length_range, Nat.mul_assoc]

/-- C4: `create(N, M)` emits exactly `N*(M+1)*2` vertices, the two
vertices for `(row, col)` being sampled at parametric points
`(col/M, row/N)` and `(col/M, (row+1)/N)`; and `Draw` issues `N` strip
ranges of `(M+1)*2` vertices at offsets `i*(M+1)*2`, which lie inside the
vertex buffer and cover every vertex index exactly once. -/
theorem c4_mesh_and_strips (coeffs : ℕ → ℝ) (A : ℝ) (N M : ℕ) (hN : 0 < N) (hM : 0 < M) :
    (createVertices coeffs A N M).length = N * (M + 1) * 2 ∧
    createVertices coeffs A N M =
      ((List.range N).map (fun i : ℕ => ((List.range (M + 1)).map (fun j : ℕ =>
        [GenVertexData coeffs A ((j : ℝ) / (M : ℝ)) ((i : ℝ) / (N : ℝ)),
          GenVertexData coeffs A ((j : ℝ) / (M : ℝ)) (((i : ℝ) + 1) / (N : ℝ))])).flatten)).flatten ∧
    (∀ c ∈ drawCalls N M, c.1 + c.2 ≤ N * (M + 1) * 2) ∧
    (∀ k, k < N * (M + 1) * 2 →
      ∃! c, c ∈ drawCalls N M ∧ c.1 ≤ k ∧ k < c.1 + c.2) := by
  have hspos : 0 < (M + 1) * 2 := by positivity
  refine ⟨createVertices_length coeffs A N M, createVertices_eq_flatten coeffs A N M, ?_, ?_⟩
  · intro c hc
    rw [drawCalls] at hc
    obtain ⟨i, hi, rfl⟩ := List.mem_map.mp hc
    have hiN : i < N := List.mem_range.mp hi
    rw [Nat.mul_assoc]
    calc i * ((M + 1) * 2) + (M + 1) * 2 = (i + 1) * ((M + 1) * 2) := (Nat.succ_mul i _).symm
    _ ≤ N * ((M + 1) * 2) := Nat.mul_le_mul_right _ hiN
  · intro k hk
    have hkNs : k < N * ((M + 1) * 2) := by rw [← Nat.mul_assoc]; exact hk
    refine ⟨(k / ((M + 1) * 2) * ((M + 1) * 2), (M + 1) * 2), ⟨?_, ?_, ?_⟩, ?_⟩
    · rw [drawCalls]
      exact List.mem_map.mpr ⟨k / ((M + 1) * 2),
        List.mem_range.mpr ((Nat.div_lt_iff_lt_mul hspos).mpr
          (by rw [Nat.mul_comm] at hkNs ⊢; exact hkNs)), rfl⟩
    · exact Nat.div_mul_le_self k ((M + 1) * 2)
    · have hmod := Nat.div_add_mod k ((M + 1) * 2)
      have hmlt := Nat.mod_lt k hspos
      calc k = (M + 1) * 2 * (k / ((M + 1) * 2)) + k % ((M + 1) * 2) := hmod.symm
      _ < (M + 1) * 2 * (k / ((M + 1) * 2)) + (M + 1) * 2 := by omega
      _ = k / ((M + 1) * 2) * ((M + 1) * 2) + (M + 1) * 2 := by rw [Nat.mul_comm]
    · rintro ⟨o, cnt⟩ ⟨hmem, hle, hlt⟩
      rw [drawCalls] at hmem
      obtain ⟨i, hi, heq⟩ := List.mem_map.mp hmem
      rw [Prod.mk.injEq] at heq
      obtain ⟨ho, hcnt⟩ := heq
      subst ho; subst hcnt
      have hidiv : k / ((M + 1) * 2) = i :=
        Nat.div_eq_of_lt_le hle (by rw [Nat.succ_mul]; exact hlt)
      rw [Prod.mk.injEq, hidiv]
      exact ⟨rfl, rfl⟩

/-- Witness for C4 at `N = 2`, `M = 3` (so 16 vertices, as in the spec's
example), with a zero phase table and zero amplitude. -/
theorem c4_mesh_and_strips_witness :
    0 < 2 ∧ 0 < 3 ∧
    ((createVertices (fun _ => 0) 0 2 3).length = 2 * (3 + 1) * 2 ∧
    createVertices (fun _ => 0) 0 2 3 =
      ((List.range 2).map (fun i : ℕ => ((List.range (3 + 1)).map (fun j : ℕ =>
        [GenVertexData (fun _ => 0) 0 ((j : ℝ) / (3 : ℝ)) ((i : ℝ) / (2 : ℝ)),
          GenVertexData (fun _ => 0) 0 ((j : ℝ) / (3 : ℝ)) (((i : ℝ) + 1) / (2 : ℝ))])).flatten)).flatten ∧
    (∀ c ∈ drawCalls 2 3, c.1 + c.2 ≤ 2 * (3 + 1) * 2) ∧
    (∀ k, k < 2 * (3 + 1) * 2 →
      ∃! c, c ∈ drawCalls 2 3 ∧ c.1 ≤ k ∧ k < c.1 + c.2)) :=
  ⟨by decide, by decide, c4_mesh_and_strips (fun _ => 0) 0 2 3 (by decide) (by decide)⟩

/-- C3: for positive mesh dimensions the generated vertex list is
nonempty, and whenever the scanned raw heights are not all equal
(`min < max`), the normalization pass rewrites every vertex's height to
`(h - min)/(max - min)`, after which every height lies in `[0, 1]`, some
vertex has height `0`, and some vertex has height `1`. -/
theorem c3_normalization (coeffs : ℕ → ℝ) (A : ℝ) (N M : ℕ) (hN : 0 < N) (hM : 0 < M)
    (v0 : VertexData) (rest : List VertexData)
    (hlt : (minMaxLoop v0.h v0.h rest).1 < (minMaxLoop v0.h v0.h rest).2) :
    createVertices coeffs A N M ≠ [] ∧
    normalizePass (v0 :: rest) = some ((v0 :: rest).map (fun v =>
      { v with h := (v.h - foldMinH v0.h rest) / (foldMaxH v0.h rest - foldMinH v0.h rest) })) ∧
    (∀ w ∈ (normalizePass (v0 :: rest)).getD [], 0 ≤ w.h ∧ w.h ≤ 1) ∧
    (∃ w ∈ (normalizePass (v0 :: rest)).getD [], w.h = 0) ∧
    (∃ w ∈ (normalizePass (v0 :: rest)).getD [], w.h = 1) := by
  have hscan := minMaxLoop_eq rest v0.h v0.h le_rfl
  rw [hscan] at hlt
  have hltr : foldMinH v0.h rest < foldMaxH v0.h rest := hlt
  have hrange : 0 < foldMaxH v0.h rest - foldMinH v0.h rest := sub_pos.mpr hltr
  have hlo : ∀ v ∈ v0 :: rest, foldMinH v0.h rest ≤ v.h := by
    intro v hv
    rcases List.mem_cons.mp hv with h | h
    · subst h; exact foldMinH_le_init rest v.h
    · exact foldMinH_le_mem rest v0.h v h
  have hhi : ∀ v ∈ v0 :: rest, v.h ≤ foldMaxH v0.h rest := by
    intro v hv
    rcases List.mem_cons.mp hv with h | h
    · subst h; exact init_le_foldMaxH rest v.h
    · exact mem_le_foldMaxH rest v0.h v h
  have hpass : normalizePass (v0 :: rest) = some ((v0 :: rest).map (fun v =>
      { v with h := (v.h - foldMinH v0.h rest) /
        (foldMaxH v0.h rest - foldMinH v0.h rest) })) := by
    rw [normalizePass, hscan]
  refine ⟨?_, hpass, ?_, ?_, ?_⟩
  · intro hempty
    have hlen := createVertices_length coeffs A N M
    rw [hempty, List.length_nil] at hlen
    have hpos : 0 < N * (M + 1) * 2 := by positivity
    omega
  · intro w hw
    rw [hpass] at hw
    obtain ⟨v, hv, rfl⟩ := List.mem_map.mp hw
    constructor
    · exact div_nonneg (sub_nonneg.mpr (hlo v hv)) hrange.le
    · rw [div_le_one hrange]
      exact sub_le_sub_right (hhi v hv) _
  · have hatt : ∃ v ∈ v0 :: rest, v.h = foldMinH v0.h rest := by
      rcases foldMinH_attained rest v0.h with h | ⟨v, hv, he⟩
      · exact ⟨v0, List.mem_cons_self v0 rest, h.symm⟩
      · exact ⟨v, List.mem_cons_of_mem v0 hv, he.symm⟩
    obtain ⟨v, hv, he⟩ := hatt
    refine ⟨{ v with h := (v.h - foldMinH v0.h rest) /
      (foldMaxH v0.h rest - foldMinH v0.h rest) }, ?_, ?_⟩
    · rw [hpass]
      exact List.mem_map.mpr ⟨v, hv, rfl⟩
    · rw [he, sub_self, zero_div]
  · have hatt : ∃ v ∈ v0 :: rest, v.h = foldMaxH v0.h rest := by
      rcases foldMaxH_attained rest v0.h with h | ⟨v, hv, he⟩
      · exact ⟨v0, List.mem_cons_self v0 rest, h.symm⟩
      · exact ⟨v, List.mem_cons_of_mem v0 hv, he.symm⟩
    obtain ⟨v, hv, he⟩ := hatt
    refine ⟨{ v with h := (v.h - foldMinH v0.h rest) /
      (foldMaxH v0.h rest - foldMinH v0.h rest) }, ?_, ?_⟩
    · rw [hpass]
      exact List.mem_map.mpr ⟨v, hv, rfl⟩
    · rw [he, div_self (ne_of_gt hrange)]

/-- Witness for C3 at `N = M = 1` and a concrete two-vertex list with
raw heights `0` and `2`. -/
theorem c3_normalization_witness :
    0 < 1 ∧
    (minMaxLoop vData0.h vData0.h [vData2]).1 < (minMaxLoop vData0.h vData0.h [vData2]).2 ∧
    (createVertices (fun _ => 0) 0 1 1 ≠ [] ∧
    normalizePass (vData0 :: [vData2]) =
      some ((vData0 :: [vData2]).map (fun v =>
        { v with h := (v.h - foldMinH vData0.h [vData2]) /
          (foldMaxH vData0.h [vData2] - foldMinH vData0.h [vData2]) })) ∧
    (∀ w ∈ (normalizePass (vData0 :: [vData2])).getD [], 0 ≤ w.h ∧ w.h ≤ 1) ∧
    (∃ w ∈ (normalizePass (vData0 :: [vData2])).getD [], w.h = 0) ∧
    (∃ w ∈ (normalizePass (vData0 :: [vData2])).getD [], w.h = 1)) :=
  ⟨by decide, by norm_num [minMaxLoop, vData0, vData2],
    c3_normalization (fun _ => 0) 0 1 1 (by decide) (by decide)
      vData0 [vData2] (by norm_num [minMaxLoop, vData0, vData2])⟩

/-- C6 (code bug): calling `create` with `N = 0` produces an empty vertex
list, and the normalization pass then reads `vtxData[0]` from that empty
vector — modelled here as the `none` outcome — instead of degrading to an
empty mesh without any out-of-bounds access, as the claim requires. -/
theorem c6_degenerate_mesh_bug :
    createVertices (fun _ => 0) 0.5 0 200 = [] ∧
    normalizePass [] = none ∧
    create (fun _ => 0) 0.5 0 200 = none := by
  have hempty : createVertices (fun _ => 0) 0.5 0 200 = [] := by
    rw [createVertices]
    simp
  refine ⟨hempty, ?_, ?_⟩
  · simp [normalizePass]
  · rw [create, hempty]
    simp [normalizePass]

/-- C7: `Dnum` multiplication follows the product rule, division the
quotient rule (for nonzero divisor value), `Sin` the chain rule, and the
composition `Sin(Cos(x))` with seed derivative `1` yields derivative
`-cos(cos x) * sin x`. -/
theorem c7_dnum_rules (a r g : Dnum) (x : ℝ) (hr : r.f ≠ 0) :
    Dnum.mul a r = ⟨a.f * r.f, a.f * r.d + a.d * r.f⟩ ∧
    Dnum.div a r = ⟨a.f / r.f, (r.f * a.d - r.d * a.f) / r.f ^ 2⟩ ∧
    SinD g = ⟨Real.sin g.f, Real.cos g.f * g.d⟩ ∧
    (SinD (CosD ⟨x, 1⟩)).d = -(Real.cos (Real.cos x) * Real.sin x) := by
  refine ⟨rfl, ?_, rfl, ?_⟩
  · rw [Dnum.div, Dnum.mk.injEq]
    exact ⟨rfl, by rw [div_div, pow_two]⟩
  · simp only [SinD, CosD]
    ring

/-- Witness for C7 at concrete dual numbers with nonzero divisor value. -/
theorem c7_dnum_rules_witness :
    (Dnum.mk (2 : ℝ) 3).f ≠ 0 ∧
    (Dnum.mul ⟨1, 2⟩ ⟨2, 3⟩ = ⟨(Dnum.mk (1:ℝ) 2).f * (Dnum.mk (2:ℝ) 3).f,
        (Dnum.mk (1:ℝ) 2).f * (Dnum.mk (2:ℝ) 3).d +
          (Dnum.mk (1:ℝ) 2).d * (Dnum.mk (2:ℝ) 3).f⟩ ∧
      Dnum.div ⟨1, 2⟩ ⟨2, 3⟩ = ⟨(Dnum.mk (1:ℝ) 2).f / (Dnum.mk (2:ℝ) 3).f,
        ((Dnum.mk (2:ℝ) 3).f * (Dnum.mk (1:ℝ) 2).d -
          (Dnum.mk (2:ℝ) 3).d * (Dnum.mk (1:ℝ) 2).f) / (Dnum.mk (2:ℝ) 3).f ^ 2⟩ ∧
      SinD ⟨0, 1⟩ = ⟨Real.sin (Dnum.mk (0:ℝ) 1).f,
        Real.cos (Dnum.mk (0:ℝ) 1).f * (Dnum.mk (0:ℝ) 1).d⟩ ∧
      (SinD (CosD ⟨0, 1⟩)).d = -(Real.cos (Real.cos 0) * Real.sin 0)) :=
  ⟨by norm_num, c7_dnum_rules ⟨1, 2⟩ ⟨2, 3⟩ ⟨0, 1⟩ 0 (by norm_num)⟩

/-- C8: with `wPos.w = 1`, a light with homogeneous weight `w = 0`
(directional) yields the same light direction at any two world positions,
while a light with `w = 1` (positional) yields different directions at
any two distinct world positions. -/
theorem c8_homogeneous_lights (dirL posL : Vec4) (p q : Vec3)
    (hdir : dirL.w = 0) (hpos : posL.w = 1) (hpq : p ≠ q) :
    wLightDir dirL p 1 = wLightDir dirL q 1 ∧
    wLightDir posL p 1 ≠ wLightDir posL q 1 := by
  constructor
  · rw [wLightDir, wLightDir, hdir]
    simp
  · intro h
    rw [wLightDir, wLightDir, hpos, Vec3.mk.injEq] at h
    obtain ⟨h1, h2, h3⟩ := h
    apply hpq
    have hx : p.x = q.x := by linarith
    have hy : p.y = q.y := by linarith
    have hz : p.z = q.z := by linarith
    calc p = ⟨p.x, p.y, p.z⟩ := rfl
    _ = ⟨q.x, q.y, q.z⟩ := by rw [hx, hy, hz]
    _ = q := rfl

/-- Witness for C8 using the scene's first light position (5, 5, 4) in
directional (`w = 0`) and positional (`w = 1`) form, at world positions
`(0,0,0)` and `(1,0,0)`. -/
theorem c8_homogeneous_lights_witness :
    (Vec4.mk (5:ℝ) 5 4 0).w = 0 ∧ (Vec4.mk (5:ℝ) 5 4 1).w = 1 ∧
    (Vec3.mk (0:ℝ) 0 0) ≠ (Vec3.mk (1:ℝ) 0 0) ∧
    (wLightDir ⟨5, 5, 4, 0⟩ ⟨0, 0, 0⟩ 1 = wLightDir ⟨5, 5, 4, 0⟩ ⟨1, 0, 0⟩ 1 ∧
      wLightDir ⟨5, 5, 4, 1⟩ ⟨0, 0, 0⟩ 1 ≠ wLightDir ⟨5, 5, 4, 1⟩ ⟨1, 0, 0⟩ 1) :=
  ⟨rfl, rfl, by norm_num [Vec3.mk.injEq],
    c8_homogeneous_lights ⟨5, 5, 4, 0⟩ ⟨5, 5, 4, 1⟩ ⟨0, 0, 0⟩ ⟨1, 0, 0⟩ rfl rfl
      (by norm_num [Vec3.mk.injEq])⟩

/-- C9: `Animate` sets the rotation angle to `0.8 * tend` and changes
nothing else: scale, translation, rotation axis and the shader, material,
texture and geometry references are all preserved. -/
theorem c9_animate_rotation_only (o : Object) (tstart tend : ℝ) :
    (o.animate tstart tend).rotationAngle = 0.8 * tend ∧
    (o.animate tstart tend).scale = o.scale ∧
    (o.animate tstart tend).translation = o.translation ∧
    (o.animate tstart tend).rotationAxis = o.rotationAxis ∧
    (o.animate tstart tend).shader = o.shader ∧
    (o.animate tstart tend).material = o.material ∧
    (o.animate tstart tend).texture = o.texture ∧
    (o.animate tstart tend).geometry = o.geometry :=
  ⟨rfl, rfl, rfl, rfl, rfl, rfl, rfl, rfl⟩
